import Mathlib

set_option maxRecDepth 8000

/- Shallow embedding of the code-table lookup service in src/api/index.py.
   Strings are modelled as lists of characters.  Python dicts are modelled
   as association lists in which the most recent insertion sits at the
   front and lookups consult the first matching key, which reproduces the
   last-write-wins semantics of repeated dict assignment. -/

/-- ASCII whitespace as stripped by Python str.strip and matched by the
regex class for whitespace on the inputs in scope. -/
def isWs (c : Char) : Bool :=
  c == ' ' || c == '\t' || c == '\n' || c == '\r' || c == '\x0b' || c == '\x0c'

/-- Python str.lstrip over characters. -/
def lstrip : List Char → List Char
  | [] => []
  | c :: cs => if isWs c then lstrip cs else c :: cs

/-- Python str.rstrip over characters, written structurally. -/
def rstrip : List Char → List Char
  | [] => []
  | c :: cs =>
    match rstrip cs with
    | [] => if isWs c then [] else [c]
    | r => c :: r

/-- Python str.strip: whitespace removed from both ends. -/
def pyStrip (cs : List Char) : List Char := rstrip (lstrip cs)

/-- Python text.split with separator a single newline character. -/
def splitNl : List Char → List (List Char)
  | [] => [[]]
  | c :: cs =>
    if c = '\n' then [] :: splitNl cs
    else
      match splitNl cs with
      | [] => [[c]]
      | l :: ls => (c :: l) :: ls

/-- Python sep.join over a list of strings. -/
def joinSep (sep : List Char) : List (List Char) → List Char
  | [] => []
  | [x] => x
  | x :: y :: ys => x ++ sep ++ joinSep sep (y :: ys)

/-- Helper for splitting on the literal separator of the generic table,
accumulating the current field in reverse. -/
def splitDDAux : List Char → List Char → List (List Char)
  | ' ' :: '-' :: '-' :: ' ' :: rest, acc => acc.reverse :: splitDDAux rest []
  | c :: rest, acc => splitDDAux rest (c :: acc)
  | [], acc => [acc.reverse]

/-- Python line.split over the four-character separator used by the
generic code table (space, dash, dash, space). -/
def splitDD (cs : List Char) : List (List Char) := splitDDAux cs []

/-- Decimal value of a run of digit characters, as Python int on an
all-digit string. -/
def parseNat (ds : List Char) : Nat :=
  ds.foldl (fun a c => a * 10 + (c.toNat - 48)) 0

/-- Python int(str) on an already-stripped field: optional sign followed
by a non-empty run of decimal digits, anything else raises (None here). -/
def pyInt (cs : List Char) : Option Int :=
  match cs with
  | '-' :: ds =>
    if !ds.isEmpty && ds.all Char.isDigit then some (-(parseNat ds : Int)) else none
  | '+' :: ds =>
    if !ds.isEmpty && ds.all Char.isDigit then some (parseNat ds : Int) else none
  | ds =>
    if !ds.isEmpty && ds.all Char.isDigit then some (parseNat ds : Int) else none

/-- The character for a decimal digit value below ten. -/
def digitC (d : Nat) : Char := Char.ofNat (48 + d)

/-- Fuel-driven core of decimal rendering; the fuel is at least the digit
count, so the zero-fuel branch is never taken from natToChars. -/
def natToCharsF : Nat → Nat → List Char → List Char
  | 0, _, acc => acc
  | f + 1, n, acc =>
    if n < 10 then digitC n :: acc
    else natToCharsF f (n / 10) (digitC (n % 10) :: acc)

/-- Python str of a natural number: decimal, no sign, no leading zeros. -/
def natToChars (n : Nat) : List Char := natToCharsF (n + 1) n []

/-- Python str of an integer. -/
def intToChars : Int → List Char
  | .ofNat n => natToChars n
  | .negSucc n => '-' :: natToChars (n + 1)

/-- Boolean test whether the first list is an initial segment of the
second. -/
def leadsWith : List Char → List Char → Bool
  | [], _ => true
  | _ :: _, [] => false
  | a :: as, b :: bs => a == b && leadsWith as bs

/-- Python substring containment k in name. -/
def listHasSub (sub : List Char) : List Char → Bool
  | [] => sub.isEmpty
  | c :: cs => leadsWith sub (c :: cs) || listHasSub sub cs

/-- An item record of the generic code table: display name, the Chinese
part-type label chosen by the keyword heuristics, and the optional parent
weapon id taken from field 0. -/
structure ItemInfo where
  name : List Char
  ptype : List Char
  parent : Option Int
deriving DecidableEq

/-- A record of the subway cosmetic table: display name and the verbatim
hex code string including its 0x prefix. -/
structure SubwayInfo where
  name : List Char
  hexCode : List Char
deriving DecidableEq

/-- The part-type label for main weapons. -/
def typeMain : List Char := "主件".toList

/-- The keyword-priority classification of a generic item name, in the
order of the if/elif chain of parse_generic_code_table: magazine, muzzle,
grip, sight markers, otherwise main weapon. -/
def classifyType (name : List Char) : List Char :=
  if listHasSub "弹匣".toList name then "弹匣".toList
  else if listHasSub "枪口".toList name then "枪口".toList
  else if listHasSub "握把".toList name then "握把".toList
  else if listHasSub "瞄具".toList name || listHasSub "瞄准镜".toList name
          || listHasSub "机瞄".toList name then "机瞄".toList
  else typeMain

/-- One loop iteration of parse_generic_code_table on a raw line: strip,
skip blank lines, split on the separator, strip every field, require at
least four fields, parse fields 0 and 1 as integers, classify the name in
field 2 and attach the parent id exactly for non-main parts.  Returns
(field0 id, field1 id, record) or none when the line is skipped. -/
def parseGenericLine (line : List Char) : Option (Int × Int × ItemInfo) :=
  let s := pyStrip line
  if s.isEmpty then none
  else
    let parts := (splitDD s).map pyStrip
    if parts.length < 4 then none
    else
      match pyInt (parts.getD 0 []), pyInt (parts.getD 1 []) with
      | some id1, some id2 =>
        let name := parts.getD 2 []
        let th := classifyType name
        some (id1, id2, ⟨name, th, if th = typeMain then none else some id1⟩)
      | _, _ => none

/-- The three dictionaries accumulated by parse_generic_code_table:
item id to record, main weapon id to name, sub part id to parent id. -/
structure GTriple where
  items : List (Int × ItemInfo)
  mains : List (Int × List Char)
  subs : List (Int × Int)
deriving DecidableEq

/-- Folding one line into the three dictionaries, with dict assignment
modelled by prepending. -/
def genericStep (t : GTriple) (line : List Char) : GTriple :=
  match parseGenericLine line with
  | none => t
  | some (id1, id2, rec) =>
    { items := (id2, rec) :: t.items
      mains := if rec.ptype = typeMain then (id2, rec.name) :: t.mains else t.mains
      subs := if rec.ptype = typeMain then t.subs else (id2, id1) :: t.subs }

/-- parse_generic_code_table over the decoded lines of the file. -/
def parseGenericLines (lines : List (List Char)) : GTriple :=
  lines.foldl genericStep ⟨[], [], []⟩

/-- The character class of the hex-code group of the subway pattern. -/
def isHexDigit (c : Char) : Bool :=
  c.isDigit || ('a' ≤ c && c ≤ 'f') || ('A' ≤ c && c ≤ 'F')

/-- Consuming a literal fragment of the subway pattern: when the input
starts with the fragment, return the remainder, otherwise fail. -/
def expectTag (tag : List Char) (cs : List Char) : Option (List Char) :=
  if leadsWith tag cs then some (cs.drop tag.length) else none

/-- The compiled subway regex applied with re.match: a deterministic
prefix parser, since every repeated character class is followed by a
delimiter the class excludes, so the greedy classes never backtrack;
anything after the closing bracket of the hex group is ignored. -/
def subwayMatch (cs : List Char) : Option (Int × SubwayInfo) :=
  match expectTag ['\x7b'] cs with
  | none => none
  | some r0 =>
    let d1 := r0.takeWhile Char.isDigit
    if d1.isEmpty then none
    else
      match expectTag ['\x7d', '-', '-', '\x7b'] (r0.dropWhile Char.isDigit) with
      | none => none
      | some r2 =>
        let d2 := r2.takeWhile Char.isDigit
        if d2.isEmpty then none
        else
          match expectTag ['\x7d', '-', '-', '['] (r2.dropWhile Char.isDigit) with
          | none => none
          | some r4 =>
            let nm := r4.takeWhile (fun c => !(c == ']'))
            if nm.isEmpty then none
            else
              match expectTag [']', '-', '-', '[', '0', 'x'] (r4.dropWhile (fun c => !(c == ']'))) with
              | none => none
              | some r6 =>
                let hx := r6.takeWhile isHexDigit
                if hx.isEmpty then none
                else
                  match expectTag [']'] (r6.dropWhile isHexDigit) with
                  | none => none
                  | some _ => some ((parseNat d1 : Int), ⟨nm, '0' :: 'x' :: hx⟩)

/-- One loop iteration of parse_subway_code_table_file: strip, skip blank
lines, match the pattern against the stripped line. -/
def parseSubwayLine (line : List Char) : Option (Int × SubwayInfo) :=
  let s := pyStrip line
  if s.isEmpty then none else subwayMatch s

/-- parse_subway_code_table_file over the decoded lines of the file. -/
def parseSubwayLines (lines : List (List Char)) : List (Int × SubwayInfo) :=
  lines.foldl
    (fun d line =>
      match parseSubwayLine line with
      | none => d
      | some (k, v) => (k, v) :: d) []

/-- The four module-level dictionaries of the service. -/
structure Tables where
  itemDict : List (Int × ItemInfo)
  mainWeaponDict : List (Int × List Char)
  subToMainDict : List (Int × Int)
  subwayItemDict : List (Int × SubwayInfo)
deriving DecidableEq

/-- Python dict lookup: the first (most recently inserted) binding. -/
def dictGet (d : List (Int × α)) (k : Int) : Option α :=
  (d.find? (fun p => p.1 == k)).map Prod.snd

/-- The per-id branch of query_item: the generic table first, then the
subway table rendered with the metro marker, then the not-found sentinel
embedding the queried id. -/
def queryOne (t : Tables) (code : Int) : List Char :=
  match dictGet t.itemDict code with
  | some i => i.name
  | none =>
    match dictGet t.subwayItemDict code with
    | some s => s.name ++ " (地铁, ".toList ++ s.hexCode ++ [')']
    | none => "未找到ID ".toList ++ intToChars code

/-- query_item: the per-id results joined by comma-space. -/
def queryItem (t : Tables) (codes : List Int) : List Char :=
  joinSep ", ".toList (codes.map (queryOne t))

/-- Fuel-driven loop of the leading-run regex: repeatedly consume
whitespace, a comma, whitespace and a non-empty digit run, exactly as the
starred group of the pattern; the fuel exceeds the input length so the
zero-fuel branch is never taken from runLoop. -/
def runLoopF : Nat → List Char → List Char × List Char
  | 0, cs => ([], cs)
  | f + 1, cs =>
    let s1 := cs.takeWhile isWs
    let r1 := cs.dropWhile isWs
    match r1 with
    | ',' :: r2 =>
      let s2 := r2.takeWhile isWs
      let r3 := r2.dropWhile isWs
      let d := r3.takeWhile Char.isDigit
      let r4 := r3.dropWhile Char.isDigit
      if d.isEmpty then ([], cs)
      else
        (s1 ++ ',' :: (s2 ++ d ++ (runLoopF f r4).1), (runLoopF f r4).2)
    | _ => ([], cs)

/-- The starred tail of the leading-run pattern. -/
def runLoop (cs : List Char) : List Char × List Char := runLoopF (cs.length + 1) cs

/-- re.match of the leading-run pattern: optional whitespace, then a
captured group of a digit run followed by comma-separated digit runs.
Returns the captured group and the remainder, or none. -/
def leadingMatch (cs : List Char) : Option (List Char × List Char) :=
  let r0 := cs.dropWhile isWs
  let d := r0.takeWhile Char.isDigit
  let r1 := r0.dropWhile Char.isDigit
  if d.isEmpty then none
  else some (d ++ (runLoop r1).1, (runLoop r1).2)

/-- Helper for re.findall of digit runs, carrying the current run in
reverse. -/
def digitRunsAux : List Char → List Char → List (List Char)
  | [], cur => if cur.isEmpty then [] else [cur.reverse]
  | c :: cs, cur =>
    if c.isDigit then digitRunsAux cs (c :: cur)
    else if cur.isEmpty then digitRunsAux cs []
    else cur.reverse :: digitRunsAux cs []

/-- re.findall of maximal digit runs over a string. -/
def digitRuns (cs : List Char) : List (List Char) := digitRunsAux cs []

/-- The numbers list of the annotator: every digit run of the captured
group converted by int. -/
def extractNums (cs : List Char) : List Nat := (digitRuns cs).map parseNat

/-- Rendering of an annotated line from its extracted numbers: the
canonical comma-space-joined decimal ids, then a hash and the joined
query result unless that result is empty, finally stripped. -/
def renderIds (t : Tables) (nums : List Nat) : List Char :=
  let comment := queryItem t (nums.map Int.ofNat)
  let idStr := joinSep ", ".toList (nums.map natToChars)
  pyStrip (if comment.isEmpty then idStr else idStr ++ ' ' :: '#' :: comment)

/-- The per-line body of the annotation loop in index: strip; emit an
empty line for a blank line; emit the stripped line when the leading-run
pattern does not match or extraction yields no numbers; otherwise emit
the rendered ids and comment. -/
def annotateLine (t : Tables) (line : List Char) : List Char :=
  let s := pyStrip line
  if s.isEmpty then []
  else
    match leadingMatch s with
    | none => s
    | some (run, _) =>
      let nums := extractNums run
      if nums.isEmpty then s else renderIds t nums

/-- The whole annotation pass of index: split the input on newlines,
process each line, join with newlines. -/
def annotate (t : Tables) (text : List Char) : List Char :=
  joinSep ['\n'] ((splitNl text).map (annotateLine t))

/-- The error message set when both tables are empty. -/
def tablesUnavailableMsg : List Char :=
  "物品代码表和地铁美化代码表均未加载，请联系管理员检查服务器日志。".toList

/-- The POST branch of the index handler: when both the generic and the
subway dictionaries are empty the request is refused with the error
message and the output text stays empty; otherwise the input is
annotated.  Result is (final_text, error_message). -/
def handlePost (t : Tables) (userInput : List Char) : List Char × List Char :=
  if t.itemDict.isEmpty && t.subwayItemDict.isEmpty then ([], tablesUnavailableMsg)
  else (annotate t userInput, [])

/-- The encodings tried by load_code_table. -/
inductive PyEnc | utf8 | gbk
deriving DecidableEq

/-- A table file as seen through each decoding attempt: the lines decoded
before any decode error, and whether a decode error is then raised while
iterating the file. -/
structure TableFile where
  utf8Lines : List (List Char)
  utf8Fails : Bool
  gbkLines : List (List Char)
  gbkFails : Bool

/-- Reading a file under an encoding: decoded lines plus the flag telling
whether iteration ends in a decode error. -/
def fileLines (f : TableFile) : PyEnc → List (List Char) × Bool
  | .utf8 => (f.utf8Lines, f.utf8Fails)
  | .gbk => (f.gbkLines, f.gbkFails)

/-- parse_generic_code_table on a file and encoding.  The for-loop runs
over the lines decoded before any decode error; a decode error raised
during iteration is caught by the blanket exception handler inside the
function, which logs and falls through to the normal return, so the
function never propagates the decode error to its caller. -/
def parseGenericFileEnc (f : TableFile) (e : PyEnc) : GTriple :=
  parseGenericLines (fileLines f e).1

/-- parse_subway_code_table_file on a file and encoding; the same blanket
exception handler swallows any decode error raised during iteration. -/
def parseSubwayFileEnc (f : TableFile) (e : PyEnc) : List (Int × SubwayInfo) :=
  parseSubwayLines (fileLines f e).1

/-- load_code_table.  Because the two parse functions catch every
exception internally and return normally, the except-UnicodeDecodeError
arms of load_code_table (the GBK retries) can never run: the result of
the UTF-8 attempt is always the one installed. -/
def loadCodeTable (gf sf : TableFile) : Tables :=
  let g := parseGenericFileEnc gf .utf8
  let sub := parseSubwayFileEnc sf .utf8
  ⟨g.items, g.mains, g.subs, sub⟩

/-- Modelled from the spec: the loader policy of section 4.3 and claim C4,
under which a file whose bytes fail to decode as UTF-8 is read and parsed
once more with the GBK fallback, so the GBK lines contribute records. -/
def loadCodeTableSpec (gf sf : TableFile) : Tables :=
  let g := if gf.utf8Fails then parseGenericFileEnc gf .gbk else parseGenericFileEnc gf .utf8
  let sub := if sf.utf8Fails then parseSubwayFileEnc sf .gbk else parseSubwayFileEnc sf .utf8
  ⟨g.items, g.mains, g.subs, sub⟩

/-- The dictionaries contain no newline character in any stored name or
hex code; true of every table loaded from files, since the parsers work
line by line on decoded lines. -/
def cleanTables (t : Tables) : Prop :=
  (∀ p ∈ t.itemDict, '\n' ∉ p.2.name) ∧
  (∀ p ∈ t.subwayItemDict, '\n' ∉ p.2.name ∧ '\n' ∉ p.2.hexCode)

instance (t : Tables) : Decidable (cleanTables t) := by
  unfold cleanTables
  infer_instance

/-- The leading ids one annotation pass extracts from a line: none when
the leading-run pattern does not match the stripped line, otherwise the
numbers of the captured group. -/
def lineIds (cs : List Char) : Option (List Nat) :=
  (leadingMatch (pyStrip cs)).map (fun pr => extractNums pr.1)

/-- Tables with nothing loaded. -/
def emptyTables : Tables := ⟨[], [], [], []⟩

/-- The loaded tables of the concrete scenario: the two generic lines and
the one subway line of the claim fed through the two parsers. -/
def scenTables : Tables :=
  let g := parseGenericLines ["1 -- 101 -- AK47步枪".toList, "101 -- 201 -- AK47弹匣".toList]
  ⟨g.items, g.mains, g.subs,
    parseSubwayLines ["\x7b501\x7d--\x7b0\x7d--[金色涂装]--[0xFFD700]".toList]⟩

/-- The scenario tables with a fourth field appended to each generic
line, so the lines meet the four-field minimum of the parser. -/
def scenTables4 : Tables :=
  let g := parseGenericLines
    ["1 -- 101 -- AK47步枪 -- 0".toList, "101 -- 201 -- AK47弹匣 -- 0".toList]
  ⟨g.items, g.mains, g.subs,
    parseSubwayLines ["\x7b501\x7d--\x7b0\x7d--[金色涂装]--[0xFFD700]".toList]⟩

/-- The five-line input of the concrete scenario. -/
def scenInput : List Char := "101\n201\n501\n999\nhello world".toList

/-- The output the concrete scenario claims. -/
def scenClaimed : List Char :=
  ("101 #AK47步枪\n201 #AK47弹匣\n501 #金色涂装 (地铁, 0xFFD700)\n" ++
    "999 #未找到ID 999\nhello world").toList

/-- The output the code produces on the scenario tables as given. -/
def scenActual : List Char :=
  ("101 #未找到ID 101\n201 #未找到ID 201\n501 #金色涂装 (地铁, 0xFFD700)\n" ++
    "999 #未找到ID 999\nhello world").toList

/-- Tables loaded from a four-field generic line whose name field is
empty after stripping. -/
def emptyNameTables : Tables :=
  let g := parseGenericLines ["1 -- 2 --  -- x".toList]
  ⟨g.items, g.mains, g.subs, []⟩

/-- A generic table file stored in GBK: the UTF-8 attempt decodes no
lines and raises a decode error, the GBK decoding yields one record
line. -/
def gbkGenericFile : TableFile := ⟨[], true, ["1 -- 101 -- AK47步枪 -- 0".toList], false⟩

/-- A subway table file stored in GBK, same shape. -/
def gbkSubwayFile : TableFile :=
  ⟨[], true, ["\x7b501\x7d--\x7b0\x7d--[金色涂装]--[0xFFD700]".toList], false⟩

-- ==================== supporting lemmas ====================

theorem isEmpty_false_of_ne {α : Type} {l : List α} (h : l ≠ []) : l.isEmpty = false := by
  cases l with
  | nil => exact absurd rfl h
  | cons a as => rfl

theorem ne_nil_of_isEmpty_false {α : Type} {l : List α} (h : l.isEmpty = false) : l ≠ [] := by
  cases l with
  | nil => simp at h
  | cons a as => simp

theorem lstrip_no_ws_head (c : Char) (t : List Char) (h : isWs c = false) :
    lstrip (c :: t) = c :: t := by
  simp [lstrip, h]

theorem lstrip_idem (cs : List Char) : lstrip (lstrip cs) = lstrip cs := by
  induction cs with
  | nil => rfl
  | cons c cs ih =>
    cases h : isWs c
    · simp [lstrip, h]
    · simp [lstrip, h, ih]

theorem rstrip_idem (cs : List Char) : rstrip (rstrip cs) = rstrip cs := by
  induction cs with
  | nil => rfl
  | cons c cs ih =>
    cases hr : rstrip cs with
    | nil => cases h : isWs c <;> simp [rstrip, hr, h]
    | cons r rs =>
      rw [hr] at ih
      have h1 : rstrip (c :: cs) = c :: r :: rs := by
        rw [rstrip, hr]
      rw [h1, rstrip, ih]

theorem lstrip_shape (cs : List Char) :
    lstrip cs = [] ∨ ∃ c t, lstrip cs = c :: t ∧ isWs c = false := by
  induction cs with
  | nil => exact Or.inl rfl
  | cons c cs ih =>
    cases h : isWs c
    · exact Or.inr ⟨c, cs, by simp [lstrip, h], h⟩
    · simpa [lstrip, h] using ih

theorem rstrip_cons_shape (c : Char) (t : List Char) :
    rstrip (c :: t) = [] ∨ ∃ t', rstrip (c :: t) = c :: t' := by
  cases hr : rstrip t with
  | nil =>
    cases h : isWs c
    · exact Or.inr ⟨[], by simp [rstrip, hr, h]⟩
    · exact Or.inl (by simp [rstrip, hr, h])
  | cons r rs => exact Or.inr ⟨r :: rs, by simp [rstrip, hr]⟩

theorem pyStrip_idem (cs : List Char) : pyStrip (pyStrip cs) = pyStrip cs := by
  unfold pyStrip
  rcases lstrip_shape cs with h | ⟨c, t, h, hws⟩
  · rw [h]; rfl
  · rw [h]
    rcases rstrip_cons_shape c t with h2 | ⟨t', h2⟩
    · rw [h2]; rfl
    · rw [h2, lstrip_no_ws_head c t' hws, ← h2, rstrip_idem]

theorem mem_lstrip {c : Char} : ∀ {cs : List Char}, c ∈ lstrip cs → c ∈ cs := by
  intro cs
  induction cs with
  | nil => intro h; simp [lstrip] at h
  | cons a as ih =>
    intro h
    cases hw : isWs a
    · rw [lstrip_no_ws_head a as hw] at h; exact h
    · rw [show lstrip (a :: as) = lstrip as from by simp [lstrip, hw]] at h
      exact List.mem_cons_of_mem a (ih h)

theorem mem_rstrip {c : Char} : ∀ {cs : List Char}, c ∈ rstrip cs → c ∈ cs := by
  intro cs
  induction cs with
  | nil => intro h; simp [rstrip] at h
  | cons a as ih =>
    intro h
    cases hr : rstrip as with
    | nil =>
      cases hw : isWs a
      · simp [rstrip, hr, hw] at h
        simp [h]
      · simp [rstrip, hr, hw] at h
    | cons r rs =>
      simp [rstrip, hr] at h
      rcases h with h | h
      · simp [h]
      · have hm : c ∈ rstrip as := by
          rw [hr]
          simpa using h
        exact List.mem_cons_of_mem a (ih hm)

theorem mem_pyStrip {c : Char} {cs : List Char} (h : c ∈ pyStrip cs) : c ∈ cs :=
  mem_lstrip (mem_rstrip h)

theorem takeWhile_cons_neg (p : Char → Bool) (c : Char) (t : List Char) (h : p c = false) :
    (c :: t).takeWhile p = [] := by
  simp [List.takeWhile_cons, h]

theorem dropWhile_cons_neg (p : Char → Bool) (c : Char) (t : List Char) (h : p c = false) :
    (c :: t).dropWhile p = c :: t := by
  simp [List.dropWhile_cons, h]

theorem takeWhile_append_exact (p : Char → Bool) (xs : List Char) (y : Char)
    (hx : ∀ x ∈ xs, p x = true) (hy : p y = false) (ys : List Char) :
    (xs ++ y :: ys).takeWhile p = xs := by
  induction xs with
  | nil => simpa using takeWhile_cons_neg p y ys hy
  | cons a as ih =>
    have ha : p a = true := hx a (by simp)
    simp only [List.cons_append, List.takeWhile_cons, ha, if_true]
    rw [ih (fun x hx' => hx x (by simp [hx']))]

theorem dropWhile_append_exact (p : Char → Bool) (xs : List Char) (y : Char)
    (hx : ∀ x ∈ xs, p x = true) (hy : p y = false) (ys : List Char) :
    (xs ++ y :: ys).dropWhile p = y :: ys := by
  induction xs with
  | nil => simpa using dropWhile_cons_neg p y ys hy
  | cons a as ih =>
    have ha : p a = true := hx a (by simp)
    simp only [List.cons_append, List.dropWhile_cons, ha, if_true]
    exact ih (fun x hx' => hx x (by simp [hx']))

theorem takeWhile_head (p : Char → Bool) (l : List Char) (x : Char) (xs : List Char)
    (h : l.takeWhile p = x :: xs) : p x = true := by
  cases l with
  | nil => simp at h
  | cons a as =>
    rw [List.takeWhile_cons] at h
    by_cases hp : p a = true
    · rw [if_pos hp] at h
      injection h with h1 h2
      rw [← h1]
      exact hp
    · rw [if_neg hp] at h
      exact absurd h (by simp)

theorem digit_not_ws {c : Char} (h : c.isDigit = true) : isWs c = false := by
  cases hw : isWs c
  · rfl
  · exfalso
    simp only [isWs, Bool.or_eq_true, beq_iff_eq] at hw
    rcases hw with ((((rfl | rfl) | rfl) | rfl) | rfl) | rfl <;> exact absurd h (by decide)

theorem digitRunsAux_all (ds : List Char) :
    ∀ cur, (∀ c ∈ ds, c.isDigit = true) →
      digitRunsAux ds cur =
        if (cur.reverse ++ ds).isEmpty then [] else [cur.reverse ++ ds] := by
  induction ds with
  | nil =>
    intro cur _
    simp [digitRunsAux, List.isEmpty_iff]
  | cons c cs ih =>
    intro cur h
    have hc : c.isDigit = true := h c (by simp)
    rw [digitRunsAux, if_pos hc, ih (c :: cur) (fun x hx => h x (by simp [hx]))]
    simp [List.isEmpty_iff]

theorem digitRuns_all_digits (ds : List Char) (h1 : ds ≠ [])
    (h2 : ∀ c ∈ ds, c.isDigit = true) : digitRuns ds = [ds] := by
  unfold digitRuns
  rw [digitRunsAux_all ds [] h2]
  simp [List.isEmpty_iff, h1]

theorem digitRunsAux_ne_nil (ds : List Char) :
    ∀ cur, cur ≠ [] → digitRunsAux ds cur ≠ [] := by
  induction ds with
  | nil =>
    intro cur h
    simp [digitRunsAux, isEmpty_false_of_ne h]
  | cons c cs ih =>
    intro cur h
    rw [digitRunsAux]
    by_cases hc : c.isDigit = true
    · rw [if_pos hc]
      exact ih (c :: cur) (by simp)
    · rw [if_neg hc, isEmpty_false_of_ne h]
      simp

theorem digitRuns_head_digit (c : Char) (cs : List Char) (h : c.isDigit = true) :
    digitRuns (c :: cs) ≠ [] := by
  unfold digitRuns
  rw [digitRunsAux, if_pos h]
  exact digitRunsAux_ne_nil cs [c] (by simp)

theorem extractNums_head_digit (c : Char) (cs : List Char) (h : c.isDigit = true) :
    extractNums (c :: cs) ≠ [] := by
  unfold extractNums
  simp only [ne_eq, List.map_eq_nil_iff]
  exact digitRuns_head_digit c cs h

theorem extractNums_all_digits (ds : List Char) (h1 : ds ≠ [])
    (h2 : ∀ c ∈ ds, c.isDigit = true) : extractNums ds = [parseNat ds] := by
  unfold extractNums
  rw [digitRuns_all_digits ds h1 h2]
  rfl

theorem digitC_isDigit {d : Nat} (h : d < 10) : (digitC d).isDigit = true := by
  interval_cases d <;> decide

theorem natToCharsF_digits (f : Nat) : ∀ (n : Nat) (acc : List Char),
    (∀ c ∈ acc, c.isDigit = true) → ∀ c ∈ natToCharsF f n acc, c.isDigit = true := by
  induction f with
  | zero =>
    intro n acc h c hc
    rw [natToCharsF] at hc
    exact h c hc
  | succ f ih =>
    intro n acc h c hc
    rw [natToCharsF] at hc
    by_cases hn : n < 10
    · rw [if_pos hn] at hc
      rcases List.mem_cons.1 hc with rfl | hc
      · exact digitC_isDigit hn
      · exact h c hc
    · rw [if_neg hn] at hc
      refine ih (n / 10) (digitC (n % 10) :: acc) ?_ c hc
      intro x hx
      rcases List.mem_cons.1 hx with rfl | hx
      · exact digitC_isDigit (Nat.mod_lt _ (by decide))
      · exact h x hx

theorem natToChars_digits (n : Nat) : ∀ c ∈ natToChars n, c.isDigit = true := by
  intro c hc
  exact natToCharsF_digits (n + 1) n [] (by simp) c hc

theorem natToCharsF_ne_nil (f : Nat) : ∀ (n : Nat) (acc : List Char),
    acc ≠ [] → natToCharsF f n acc ≠ [] := by
  induction f with
  | zero =>
    intro n acc h
    rw [natToCharsF]
    exact h
  | succ f ih =>
    intro n acc h
    rw [natToCharsF]
    by_cases hn : n < 10
    · rw [if_pos hn]
      simp
    · rw [if_neg hn]
      exact ih (n / 10) _ (by simp)

theorem natToChars_ne_nil (n : Nat) : natToChars n ≠ [] := by
  unfold natToChars
  rw [natToCharsF]
  by_cases hn : n < 10
  · rw [if_pos hn]
    simp
  · rw [if_neg hn]
    exact natToCharsF_ne_nil n (n / 10) _ (by simp)

theorem mem_joinSep {c : Char} (sep : List Char) :
    ∀ ls : List (List Char), c ∈ joinSep sep ls → c ∈ sep ∨ ∃ l ∈ ls, c ∈ l := by
  intro ls
  induction ls with
  | nil =>
    intro h
    simp [joinSep] at h
  | cons x xs ih =>
    cases xs with
    | nil =>
      intro h
      rw [joinSep] at h
      exact Or.inr ⟨x, by simp, h⟩
    | cons y ys =>
      intro h
      rw [joinSep] at h
      rcases List.mem_append.1 h with h | h
      · rcases List.mem_append.1 h with h | h
        · exact Or.inr ⟨x, by simp, h⟩
        · exact Or.inl h
      · rcases ih h with h | ⟨l, hl, hcl⟩
        · exact Or.inl h
        · exact Or.inr ⟨l, List.mem_cons_of_mem x hl, hcl⟩

theorem splitNl_ne_nil (cs : List Char) : splitNl cs ≠ [] := by
  induction cs with
  | nil => simp [splitNl]
  | cons c cs ih =>
    rw [splitNl]
    by_cases h : c = '\n'
    · simp [h]
    · rw [if_neg h]
      cases hs : splitNl cs with
      | nil => simp
      | cons l ls => simp

theorem splitNl_mem_no_nl : ∀ (cs : List Char), ∀ l ∈ splitNl cs, '\n' ∉ l := by
  intro cs
  induction cs with
  | nil =>
    intro l hl
    simp [splitNl] at hl
    simp [hl]
  | cons c cs ih =>
    intro l hl
    rw [splitNl] at hl
    by_cases h : c = '\n'
    · rw [if_pos h] at hl
      rcases List.mem_cons.1 hl with rfl | hl
      · simp
      · exact ih l hl
    · rw [if_neg h] at hl
      cases hs : splitNl cs with
      | nil => exact absurd hs (splitNl_ne_nil cs)
      | cons m ms =>
        rw [hs] at hl
        rcases List.mem_cons.1 hl with rfl | hl
        · intro hmem
          rcases List.mem_cons.1 hmem with heq | hmem
          · exact h heq.symm
          · exact ih m (by rw [hs]; simp) hmem
        · exact ih l (by rw [hs]; exact List.mem_cons_of_mem m hl)

theorem splitNl_no_nl (l : List Char) (h : '\n' ∉ l) : splitNl l = [l] := by
  induction l with
  | nil => rfl
  | cons c cs ih =>
    have hc : ¬ c = '\n' := by
      intro hc
      exact h (by simp [hc])
    rw [splitNl, if_neg hc, ih (fun hm => h (List.mem_cons_of_mem c hm))]

theorem splitNl_append (x r : List Char) (h : '\n' ∉ x) :
    splitNl (x ++ '\n' :: r) = x :: splitNl r := by
  induction x with
  | nil => simp [splitNl]
  | cons c cs ih =>
    have hc : ¬ c = '\n' := by
      intro hc
      exact h (by simp [hc])
    rw [List.cons_append, splitNl, if_neg hc,
      ih (fun hm => h (List.mem_cons_of_mem c hm))]

theorem splitNl_joinSep (ls : List (List Char)) (h : ls ≠ [])
    (hn : ∀ l ∈ ls, '\n' ∉ l) : splitNl (joinSep ['\n'] ls) = ls := by
  induction ls with
  | nil => exact absurd rfl h
  | cons x xs ih =>
    cases xs with
    | nil =>
      rw [joinSep]
      exact splitNl_no_nl x (hn x (by simp))
    | cons y ys =>
      rw [joinSep]
      have hx : '\n' ∉ x := hn x (by simp)
      have h2 : x ++ ['\n'] ++ joinSep ['\n'] (y :: ys) =
          x ++ '\n' :: joinSep ['\n'] (y :: ys) := by
        simp
      rw [h2, splitNl_append _ _ hx,
        ih (by simp) (fun l hl => hn l (List.mem_cons_of_mem x hl))]

theorem leadsWith_append (tag rest : List Char) : leadsWith tag (tag ++ rest) = true := by
  induction tag with
  | nil => rfl
  | cons a as ih => simp [leadsWith, ih]

theorem expectTag_append (tag rest : List Char) : expectTag tag (tag ++ rest) = some rest := by
  unfold expectTag
  rw [leadsWith_append]
  simp

theorem dictGet_mem {α : Type} {d : List (Int × α)} {k : Int} {v : α}
    (h : dictGet d k = some v) : ∃ p ∈ d, p.2 = v := by
  unfold dictGet at h
  rcases Option.map_eq_some'.1 h with ⟨p, hp, hv⟩
  exact ⟨p, List.mem_of_find?_eq_some hp, hv⟩

theorem leadingMatch_none_of_nil : leadingMatch [] = none := by
  rfl

theorem leadingMatch_some_shape {cs run rest : List Char}
    (h : leadingMatch cs = some (run, rest)) :
    cs ≠ [] ∧ ∃ c t, run = c :: t ∧ c.isDigit = true := by
  constructor
  · intro hcs
    rw [hcs] at h
    exact absurd h (by simp [leadingMatch_none_of_nil])
  · unfold leadingMatch at h
    by_cases hd : ((cs.dropWhile isWs).takeWhile Char.isDigit).isEmpty
    · rw [if_pos hd] at h
      exact absurd h (by simp)
    · rw [if_neg hd] at h
      injection h with h1
      have hne := ne_nil_of_isEmpty_false (by
        cases he : ((cs.dropWhile isWs).takeWhile Char.isDigit).isEmpty
        · rfl
        · exact absurd he hd)
      cases he : (cs.dropWhile isWs).takeWhile Char.isDigit with
      | nil => exact absurd he hne
      | cons c t =>
        refine ⟨c, t ++ (runLoop ((cs.dropWhile isWs).dropWhile Char.isDigit)).1, ?_, ?_⟩
        · have h2 := (Prod.mk.injEq _ _ _ _ ▸ h1).1
          rw [← h2, he]
          rfl
        · exact takeWhile_head Char.isDigit (cs.dropWhile isWs) c t he

theorem extractNums_of_leadingMatch {cs run rest : List Char}
    (h : leadingMatch cs = some (run, rest)) : extractNums run ≠ [] := by
  rcases leadingMatch_some_shape h with ⟨_, c, t, hrun, hc⟩
  rw [hrun]
  exact extractNums_head_digit c t hc

theorem annotateLine_of_strip_nil (t : Tables) (line : List Char)
    (h : pyStrip line = []) : annotateLine t line = [] := by
  unfold annotateLine
  rw [h]
  rfl

theorem annotateLine_of_no_match (t : Tables) (line : List Char)
    (h1 : pyStrip line ≠ []) (h2 : leadingMatch (pyStrip line) = none) :
    annotateLine t line = pyStrip line := by
  unfold annotateLine
  simp [isEmpty_false_of_ne h1, h2]

theorem annotateLine_of_match (t : Tables) (line run rest : List Char)
    (h : leadingMatch (pyStrip line) = some (run, rest)) :
    annotateLine t line = renderIds t (extractNums run) := by
  have hs : pyStrip line ≠ [] := (leadingMatch_some_shape h).1
  unfold annotateLine
  simp [isEmpty_false_of_ne hs, h, isEmpty_false_of_ne (extractNums_of_leadingMatch h)]

theorem runLoopF_stop (f : Nat) (c : Char) (t : List Char)
    (hw : isWs c = false) (hc : c ≠ ',') :
    runLoopF (f + 1) (c :: t) = ([], c :: t) := by
  rw [runLoopF]
  simp only [dropWhile_cons_neg isWs c t hw]
  split
  next r2 heq =>
    injection heq with h1 h2
    exact absurd h1 hc
  next => rfl

theorem runLoop_stop (c : Char) (t : List Char) (hw : isWs c = false) (hc : c ≠ ',') :
    runLoop (c :: t) = ([], c :: t) := by
  unfold runLoop
  exact runLoopF_stop _ c t hw hc

theorem leadingMatch_digits_stop (ds : List Char) (c : Char) (t' : List Char)
    (hd : ds ≠ []) (hds : ∀ x ∈ ds, x.isDigit = true)
    (hc1 : c.isDigit = false) (hc2 : isWs c = false) (hc3 : c ≠ ',') :
    leadingMatch (ds ++ c :: t') = some (ds, c :: t') := by
  unfold leadingMatch
  have hw0 : (ds ++ c :: t').dropWhile isWs = ds ++ c :: t' := by
    cases ds with
    | nil => exact absurd rfl hd
    | cons a as =>
      have ha : isWs a = false := digit_not_ws (hds a (by simp))
      rw [List.cons_append]
      exact dropWhile_cons_neg isWs a _ ha
  simp only [hw0, takeWhile_append_exact Char.isDigit ds c hds hc1 t',
    dropWhile_append_exact Char.isDigit ds c hds hc1 t',
    isEmpty_false_of_ne hd, runLoop_stop c t' hc2 hc3]
  simp

theorem intToChars_no_nl (code : Int) : '\n' ∉ intToChars code := by
  intro hm
  cases code with
  | ofNat n =>
    have := natToChars_digits n '\n' hm
    exact absurd this (by decide)
  | negSucc n =>
    rcases List.mem_cons.1 hm with h | h
    · exact absurd h (by decide)
    · have := natToChars_digits (n + 1) '\n' h
      exact absurd this (by decide)

theorem queryOne_no_nl (t : Tables) (h : cleanTables t) (code : Int) :
    '\n' ∉ queryOne t code := by
  intro hm
  unfold queryOne at hm
  cases hi : dictGet t.itemDict code with
  | some i =>
    rw [hi] at hm
    rcases dictGet_mem hi with ⟨p, hp, hpv⟩
    exact h.1 p hp (hpv ▸ hm)
  | none =>
    rw [hi] at hm
    cases hsw : dictGet t.subwayItemDict code with
    | some s =>
      rw [hsw] at hm
      rcases dictGet_mem hsw with ⟨p, hp, hpv⟩
      rcases List.mem_append.1 hm with hm | hm
      · rcases List.mem_append.1 hm with hm | hm
        · rcases List.mem_append.1 hm with hm | hm
          · exact (h.2 p hp).1 (hpv ▸ hm)
          · exact absurd hm (by decide)
        · exact (h.2 p hp).2 (hpv ▸ hm)
      · exact absurd hm (by decide)
    | none =>
      rw [hsw] at hm
      rcases List.mem_append.1 hm with hm | hm
      · exact absurd hm (by decide)
      · exact intToChars_no_nl code hm

theorem queryItem_no_nl (t : Tables) (h : cleanTables t) (codes : List Int) :
    '\n' ∉ queryItem t codes := by
  intro hm
  unfold queryItem at hm
  rcases mem_joinSep _ _ hm with hm | ⟨l, hl, hcl⟩
  · exact absurd hm (by decide)
  · rcases List.mem_map.1 hl with ⟨code, _, rfl⟩
    exact queryOne_no_nl t h code hcl

theorem renderIds_no_nl (t : Tables) (h : cleanTables t) (nums : List Nat) :
    '\n' ∉ renderIds t nums := by
  intro hm
  unfold renderIds at hm
  have hid : '\n' ∉ joinSep ", ".toList (nums.map natToChars) := by
    intro hm2
    rcases mem_joinSep _ _ hm2 with hm2 | ⟨l, hl, hcl⟩
    · exact absurd hm2 (by decide)
    · rcases List.mem_map.1 hl with ⟨n, _, rfl⟩
      have := natToChars_digits n '\n' hcl
      exact absurd this (by decide)
  have hm' := mem_pyStrip hm
  by_cases hq : (queryItem t (nums.map Int.ofNat)).isEmpty = true
  · rw [if_pos hq] at hm'
    exact hid hm'
  · rw [if_neg hq] at hm'
    rcases List.mem_append.1 hm' with hm' | hm'
    · exact hid hm'
    · rcases List.mem_cons.1 hm' with hm' | hm'
      · exact absurd hm' (by decide)
      · rcases List.mem_cons.1 hm' with hm' | hm'
        · exact absurd hm' (by decide)
        · exact queryItem_no_nl t h _ hm'

theorem annotateLine_no_nl (t : Tables) (h : cleanTables t) (line : List Char)
    (hl : '\n' ∉ line) : '\n' ∉ annotateLine t line := by
  intro hm
  unfold annotateLine at hm
  by_cases hs : (pyStrip line).isEmpty = true
  · rw [if_pos hs] at hm
    simp at hm
  · rw [if_neg hs] at hm
    cases hlm : leadingMatch (pyStrip line) with
    | none =>
      rw [hlm] at hm
      exact hl (mem_pyStrip hm)
    | some pr =>
      rcases pr with ⟨run, rest⟩
      rw [hlm] at hm
      simp only at hm
      by_cases hn : (extractNums run).isEmpty = true
      · rw [if_pos hn] at hm
        exact hl (mem_pyStrip hm)
      · rw [if_neg hn] at hm
        exact renderIds_no_nl t h (extractNums run) hm

theorem expectTag_cons (c : Char) (rest : List Char) :
    expectTag [c] (c :: rest) = some rest := by
  simp [expectTag, leadsWith]

theorem expectTag_cons4 (a b c d : Char) (rest : List Char) :
    expectTag [a, b, c, d] (a :: b :: c :: d :: rest) = some rest := by
  simp [expectTag, leadsWith]

theorem expectTag_cons6 (a b c d e f : Char) (rest : List Char) :
    expectTag [a, b, c, d, e, f] (a :: b :: c :: d :: e :: f :: rest) = some rest := by
  simp [expectTag, leadsWith]

theorem splitNl_annotate (t : Tables) (h : cleanTables t) (text : List Char) :
    splitNl (annotate t text) = (splitNl text).map (annotateLine t) := by
  unfold annotate
  refine splitNl_joinSep _ ?_ ?_
  · intro hmap
    exact splitNl_ne_nil text (List.map_eq_nil_iff.1 hmap)
  · intro l hl
    rcases List.mem_map.1 hl with ⟨m, hm, rfl⟩
    exact annotateLine_no_nl t h m (splitNl_mem_no_nl text m hm)

-- ==================== claim theorems ====================

/-- Claim C1, counterexample: with the index loaded from the three table
lines of the scenario, annotating the five-line input does not produce
the five output lines the claim states.  The two generic lines split into
only three fields, so parse_generic_code_table skips them both and the
generic ids resolve to the not-found sentinel. -/
theorem c1_scenario_counterexample :
    scenTables.itemDict = [] ∧
    annotate scenTables scenInput = scenActual ∧
    annotate scenTables scenInput ≠ scenClaimed := by
  refine ⟨by decide, by decide, by decide⟩

/-- Claim C1 as amended: when each generic record line carries the
four-field minimum the parser demands (a fourth field appended), the
five-line input produces exactly the five claimed output lines. -/
theorem c1_scenario_amended :
    annotate scenTables4 scenInput = scenClaimed := by
  decide

/-- Claim C2, counterexample: resolve can return the empty string.  The
four-field generic line with an empty name field loads id 2 with name
empty, and query_item then returns that empty name for id 2, so the
result is not a non-empty string. -/
theorem c2_resolve_counterexample :
    dictGet emptyNameTables.itemDict 2 = some ⟨[], typeMain, none⟩ ∧
    queryOne emptyNameTables 2 = [] := by
  refine ⟨by decide, by decide⟩

/-- Claim C2 as amended: for every id, resolve returns the generic-table
name when the id is in the generic map (generic entries take precedence);
otherwise the subway entry in the metro display format; otherwise the
sentinel embedding the id.  The subway and sentinel branches are always
non-empty; the generic branch returns the stored name, which is non-empty
exactly when that stored name is non-empty. -/
theorem c2_resolve_cases (t : Tables) (code : Int) :
    (∀ i, dictGet t.itemDict code = some i → queryOne t code = i.name) ∧
    (dictGet t.itemDict code = none →
      ∀ s, dictGet t.subwayItemDict code = some s →
        queryOne t code = s.name ++ " (地铁, ".toList ++ s.hexCode ++ [')'] ∧
          queryOne t code ≠ []) ∧
    (dictGet t.itemDict code = none → dictGet t.subwayItemDict code = none →
      queryOne t code = "未找到ID ".toList ++ intToChars code ∧
        queryOne t code ≠ []) := by
  refine ⟨?_, ?_, ?_⟩
  · intro i hi
    unfold queryOne
    rw [hi]
  · intro hi s hs
    unfold queryOne
    rw [hi, hs]
    refine ⟨rfl, ?_⟩
    intro hnil
    have h2 := (List.append_eq_nil.1 hnil).2
    exact absurd h2 (by decide)
  · intro hi hs
    unfold queryOne
    rw [hi, hs]
    refine ⟨rfl, ?_⟩
    intro hnil
    have h2 := (List.append_eq_nil.1 hnil).1
    exact absurd h2 (by decide)

/-- Witness for c2_resolve_cases at concrete inputs. -/
theorem c2_resolve_cases_witness :
    dictGet emptyTables.itemDict 9 = none ∧
    dictGet emptyTables.subwayItemDict 9 = none ∧
    (queryOne emptyTables 9 = "未找到ID ".toList ++ intToChars 9 ∧
      queryOne emptyTables 9 ≠ []) :=
  ⟨by decide, by decide, (c2_resolve_cases emptyTables 9).2.2 (by decide) (by decide)⟩

/-- Claim C4: the claim describes the intended GBK retry, but the retry
is unreachable.  parse_generic_code_table and
parse_subway_code_table_file catch the decode error inside their blanket
exception handlers and return normally, so load_code_table's
except-UnicodeDecodeError arms never run: a GBK-encoded file loads
nothing, while the loader the spec describes would load its records. -/
theorem c4_gbk_fallback_unreachable :
    (loadCodeTable gbkGenericFile gbkSubwayFile).itemDict = [] ∧
    (loadCodeTable gbkGenericFile gbkSubwayFile).subwayItemDict = [] ∧
    dictGet (loadCodeTableSpec gbkGenericFile gbkSubwayFile).itemDict 101 =
      some ⟨"AK47步枪".toList, typeMain, none⟩ ∧
    dictGet (loadCodeTableSpec gbkGenericFile gbkSubwayFile).subwayItemDict 501 =
      some ⟨"金色涂装".toList, "0xFFD700".toList⟩ := by
  refine ⟨by decide, by decide, by decide, by decide⟩

/-- Claim C8: when both the generic and the subway dictionaries are
empty, the POST handler refuses the request with the tables-unavailable
error message and produces no annotated text at all. -/
theorem c8_tables_unavailable (t : Tables) (input : List Char)
    (h1 : t.itemDict = []) (h2 : t.subwayItemDict = []) :
    handlePost t input = ([], tablesUnavailableMsg) := by
  unfold handlePost
  rw [h1, h2]
  rfl

/-- Witness for c8_tables_unavailable at concrete inputs. -/
theorem c8_tables_unavailable_witness :
    emptyTables.itemDict = [] ∧ emptyTables.subwayItemDict = [] ∧
    handlePost emptyTables "101\nhello".toList = ([], tablesUnavailableMsg) :=
  ⟨rfl, rfl, c8_tables_unavailable emptyTables "101\nhello".toList rfl rfl⟩

/-- Claim C5: on a single line whose leading numeric run is unchanged by
one annotation pass, re-annotating the annotated line reproduces it: the
pass re-extracts the same leading ids, discards the appended comment as
trailing content, and regenerates the same output line. -/
theorem c5_reannotate (t : Tables) (x : List Char)
    (h : lineIds (annotateLine t x) = lineIds x) :
    annotateLine t (annotateLine t x) = annotateLine t x := by
  by_cases hs : pyStrip x = []
  · rw [annotateLine_of_strip_nil t x hs, annotateLine_of_strip_nil t [] rfl]
  · cases hlm : leadingMatch (pyStrip x) with
    | none =>
      rw [annotateLine_of_no_match t x hs hlm,
        annotateLine_of_no_match t (pyStrip x)
          (by rw [pyStrip_idem]; exact hs) (by rw [pyStrip_idem]; exact hlm),
        pyStrip_idem]
    | some pr =>
      rcases pr with ⟨run, rest⟩
      have e1 : annotateLine t x = renderIds t (extractNums run) :=
        annotateLine_of_match t x run rest hlm
      have hx : lineIds x = some (extractNums run) := by
        unfold lineIds
        rw [hlm]
        rfl
      rw [e1, hx] at h
      rcases Option.map_eq_some'.1 h with ⟨pr', hpr', hex⟩
      rcases pr' with ⟨run', rest'⟩
      have hex' : extractNums run' = extractNums run := hex
      rw [e1]
      rw [annotateLine_of_match t (renderIds t (extractNums run)) run' rest' hpr', hex']

/-- Witness for c5_reannotate at a concrete line with trailing text. -/
theorem c5_reannotate_witness :
    lineIds (annotateLine emptyTables "12, 34 extra".toList) =
      lineIds "12, 34 extra".toList ∧
    annotateLine emptyTables (annotateLine emptyTables "12, 34 extra".toList) =
      annotateLine emptyTables "12, 34 extra".toList :=
  ⟨by decide, c5_reannotate emptyTables "12, 34 extra".toList (by decide)⟩

/-- Claim C6: on a line whose stripped form matches the leading-run
pattern, the annotator's output is computed from the extracted numbers
alone — the trailing remainder is discarded, and the id portion is the
canonical comma-space join; concretely, the irregular line of the claim
normalizes its id portion to 12, 34 and drops the trailing note. -/
theorem c6_trailing_discarded (t : Tables) (line run rest : List Char)
    (h : leadingMatch (pyStrip line) = some (run, rest)) :
    annotateLine t line = renderIds t (extractNums run) ∧
    annotateLine emptyTables "  12 ,  34   some note".toList =
      "12, 34 #未找到ID 12, 未找到ID 34".toList :=
  ⟨annotateLine_of_match t line run rest h, by decide⟩

/-- Witness for c6_trailing_discarded at the claim's concrete line. -/
theorem c6_trailing_discarded_witness :
    leadingMatch (pyStrip "  12 ,  34   some note".toList) =
      some ("12 ,  34".toList, "   some note".toList) ∧
    annotateLine emptyTables "  12 ,  34   some note".toList =
      renderIds emptyTables (extractNums "12 ,  34".toList) :=
  ⟨by decide,
    (c6_trailing_discarded emptyTables "  12 ,  34   some note".toList
      "12 ,  34".toList "   some note".toList (by decide)).1⟩

/-- Claim C7: annotation emits exactly one output line per input line;
a line blank after stripping is emitted as the empty line, and a line
with no leading numeric run is emitted stripped but otherwise
unchanged. -/
theorem c7_line_preservation (t : Tables) (h : cleanTables t) (text l : List Char) :
    splitNl (annotate t text) = (splitNl text).map (annotateLine t) ∧
    (splitNl (annotate t text)).length = (splitNl text).length ∧
    (pyStrip l = [] → annotateLine t l = []) ∧
    (pyStrip l ≠ [] → leadingMatch (pyStrip l) = none → annotateLine t l = pyStrip l) := by
  have h1 := splitNl_annotate t h text
  refine ⟨h1, ?_, ?_, ?_⟩
  · rw [h1]
    exact List.length_map _ _
  · intro hb
    exact annotateLine_of_strip_nil t l hb
  · intro hne hnm
    exact annotateLine_of_no_match t l hne hnm

/-- Witness for c7_line_preservation on the scenario tables and input. -/
theorem c7_line_preservation_witness :
    cleanTables scenTables4 ∧
    (splitNl (annotate scenTables4 scenInput) =
        (splitNl scenInput).map (annotateLine scenTables4) ∧
      (splitNl (annotate scenTables4 scenInput)).length = (splitNl scenInput).length ∧
      (pyStrip "   ".toList = [] → annotateLine scenTables4 "   ".toList = []) ∧
      (pyStrip "   ".toList ≠ [] → leadingMatch (pyStrip "   ".toList) = none →
        annotateLine scenTables4 "   ".toList = pyStrip "   ".toList)) :=
  ⟨by decide, c7_line_preservation scenTables4 (by decide) scenInput "   ".toList⟩

/-- Claim C10: a line whose stripped form is a digit run glued directly
to a non-digit, non-whitespace, non-comma suffix is still annotated: the
digits are extracted and resolved and the glued suffix is discarded;
concretely 123abc annotates to 123 followed by the resolution of 123. -/
theorem c10_glued_suffix (t : Tables) (line ds t' : List Char) (c : Char)
    (h : pyStrip line = ds ++ c :: t')
    (hd : ds ≠ []) (hds : ∀ x ∈ ds, x.isDigit = true)
    (hc1 : c.isDigit = false) (hc2 : isWs c = false) (hc3 : c ≠ ',') :
    annotateLine t line = renderIds t [parseNat ds] ∧
    annotateLine emptyTables "123abc".toList = "123 #未找到ID 123".toList := by
  constructor
  · have hm : leadingMatch (pyStrip line) = some (ds, c :: t') := by
      rw [h]
      exact leadingMatch_digits_stop ds c t' hd hds hc1 hc2 hc3
    rw [annotateLine_of_match t line ds (c :: t') hm,
      extractNums_all_digits ds hd hds]
  · decide

/-- Witness for c10_glued_suffix at the glued line 123abc. -/
theorem c10_glued_suffix_witness :
    pyStrip "123abc".toList = "123".toList ++ 'a' :: "bc".toList ∧
    annotateLine emptyTables "123abc".toList =
      renderIds emptyTables [parseNat "123".toList] :=
  ⟨by decide,
    (c10_glued_suffix emptyTables "123abc".toList "123".toList "bc".toList 'a'
      (by decide) (by decide) (by decide) (by decide) (by decide) (by decide)).1⟩

/-- Claim C3: a generic-table line that splits into at least four
stripped fields with integer fields 0 and 1 yields a record keyed by the
field-1 integer (the second component of the returned triple, which
genericStep uses as the dictionary key), whose part type is chosen by the
first matching keyword in the fixed priority order magazine, muzzle,
grip, sight markers, main-weapon default, and whose parent id is the
field-0 integer exactly when the classification is not main weapon. -/
theorem c3_generic_classification (line : List Char) (parts : List (List Char)) (a b : Int)
    (hp : (splitDD (pyStrip line)).map pyStrip = parts)
    (hlen : 4 ≤ parts.length)
    (ha : pyInt (parts.getD 0 []) = some a)
    (hb : pyInt (parts.getD 1 []) = some b) :
    parseGenericLine line =
      some (a, b,
        { name := parts.getD 2 []
          ptype :=
            if listHasSub "弹匣".toList (parts.getD 2 []) then "弹匣".toList
            else if listHasSub "枪口".toList (parts.getD 2 []) then "枪口".toList
            else if listHasSub "握把".toList (parts.getD 2 []) then "握把".toList
            else if listHasSub "瞄具".toList (parts.getD 2 []) ||
                listHasSub "瞄准镜".toList (parts.getD 2 []) ||
                listHasSub "机瞄".toList (parts.getD 2 []) then "机瞄".toList
            else typeMain
          parent :=
            if classifyType (parts.getD 2 []) = typeMain then none else some a }) := by
  have hs : pyStrip line ≠ [] := by
    intro h0
    rw [h0] at hp
    have hpp : parts = [[]] := by
      rw [← hp]
      rfl
    rw [hpp] at hlen
    simp at hlen
  have hlt : ¬ parts.length < 4 := by omega
  unfold parseGenericLine
  simp only [isEmpty_false_of_ne hs, hp, Bool.false_eq_true, if_false, hlt, ha, hb]
  rfl

/-- Witness for c3_generic_classification at a concrete muzzle line. -/
theorem c3_generic_classification_witness :
    ((splitDD (pyStrip "3 -- 7 -- 消音枪口 -- x".toList)).map pyStrip =
      ["3".toList, "7".toList, "消音枪口".toList, "x".toList]) ∧
    parseGenericLine "3 -- 7 -- 消音枪口 -- x".toList =
      some (3, 7, ⟨"消音枪口".toList, "枪口".toList, some 3⟩) :=
  ⟨by decide,
    c3_generic_classification "3 -- 7 -- 消音枪口 -- x".toList
      ["3".toList, "7".toList, "消音枪口".toList, "x".toList] 3 7
      (by decide) (by decide) (by decide) (by decide)⟩

/-- Claim C9: the subway parser accepts any stripped line whose prefix
matches the pattern; arbitrary trailing characters after the closing
bracket of the hex group do not prevent the match, and the record is
parsed from the matching prefix exactly as if the trailing text were
absent. -/
theorem c9_subway_trailing (d1 d2 nm hx trailing : List Char)
    (hd1 : d1 ≠ []) (hd1d : ∀ c ∈ d1, c.isDigit = true)
    (hd2 : d2 ≠ []) (hd2d : ∀ c ∈ d2, c.isDigit = true)
    (hnm : nm ≠ []) (hnmc : ∀ c ∈ nm, (!(c == ']')) = true)
    (hhx : hx ≠ []) (hhxd : ∀ c ∈ hx, isHexDigit c = true) :
    subwayMatch ('\x7b' :: (d1 ++ '\x7d' :: '-' :: '-' :: '\x7b' :: (d2 ++
      '\x7d' :: '-' :: '-' :: '[' :: (nm ++ ']' :: '-' :: '-' :: '[' :: '0' :: 'x' ::
        (hx ++ ']' :: trailing))))) =
      some ((parseNat d1 : Int), ⟨nm, '0' :: 'x' :: hx⟩) := by
  unfold subwayMatch
  simp only [expectTag_cons, expectTag_cons4, expectTag_cons6,
    takeWhile_append_exact Char.isDigit d1 '\x7d' hd1d (by decide),
    dropWhile_append_exact Char.isDigit d1 '\x7d' hd1d (by decide),
    takeWhile_append_exact Char.isDigit d2 '\x7d' hd2d (by decide),
    dropWhile_append_exact Char.isDigit d2 '\x7d' hd2d (by decide),
    takeWhile_append_exact (fun c => !(c == ']')) nm ']' hnmc (by decide),
    dropWhile_append_exact (fun c => !(c == ']')) nm ']' hnmc (by decide),
    takeWhile_append_exact isHexDigit hx ']' hhxd (by decide),
    dropWhile_append_exact isHexDigit hx ']' hhxd (by decide),
    isEmpty_false_of_ne hd1, isEmpty_false_of_ne hd2,
    isEmpty_false_of_ne hnm, isEmpty_false_of_ne hhx,
    Bool.false_eq_true, if_false]

/-- Witness for c9_subway_trailing: the scenario subway line with a
trailing comment still parses to the same record. -/
theorem c9_subway_trailing_witness :
    subwayMatch ('\x7b' :: ("501".toList ++ '\x7d' :: '-' :: '-' :: '\x7b' :: ("0".toList ++
      '\x7d' :: '-' :: '-' :: '[' :: ("金色涂装".toList ++ ']' :: '-' :: '-' :: '[' :: '0' :: 'x' ::
        ("FFD700".toList ++ ']' :: ", trailing comment".toList))))) =
      some ((parseNat "501".toList : Int), ⟨"金色涂装".toList, '0' :: 'x' :: "FFD700".toList⟩) :=
  c9_subway_trailing "501".toList "0".toList "金色涂装".toList "FFD700".toList
    ", trailing comment".toList (by decide) (by decide) (by decide) (by decide)
    (by decide) (by decide) (by decide) (by decide)
